import Mathlib

/-!
# High-Precision-Sweep: verification of the signal synthesis and packaging engine

Shallow embedding of `src/app.py` (a Streamlit app that synthesizes precision
sine tones).  Numeric buffers are modelled over `ℝ` (the source computes with
IEEE float64 and `np.sin`; we model the real-number semantics the code
implements), discrete data (offset lists for parsing/naming, strings, counts)
over `ℚ`/`ℕ`/`String` so that they stay executable.
-/

/-- The only error the core can raise before synthesis: `float(token)` raising
`ValueError` on a non-numeric literal-offset token (src/app.py line 62). -/
inductive GenError where
  | parseError
deriving DecidableEq

/-- Decimal digit test: `'0' ≤ c ≤ '9'`. -/
def isDigitChar (c : Char) : Bool := '0' ≤ c && c ≤ '9'

/-- Whitespace stripped by Python's `str.strip()`. -/
def isSpaceChar (c : Char) : Bool :=
  c = ' ' || c = '\t' || c = '\n' || c = '\x0d' || c = '\x0b' || c = '\x0c'

/-- Python `str.split(",")`: split at every comma; `n` commas give `n + 1`
pieces (empty pieces included). -/
def splitOnComma : List Char → List (List Char)
  | [] => [[]]
  | c :: rest =>
    if c = ',' then [] :: splitOnComma rest
    else
      match splitOnComma rest with
      | t :: ts => (c :: t) :: ts
      | [] => [[c]]

/-- Python `str.strip()`: drop leading and trailing whitespace. -/
def trimChars (cs : List Char) : List Char :=
  ((cs.dropWhile isSpaceChar).reverse.dropWhile isSpaceChar).reverse

/-- Value of a list of decimal digit characters, most significant first. -/
def digitsToNat (cs : List Char) : ℕ :=
  cs.foldl (fun acc c => acc * 10 + (c.toNat - '0'.toNat)) 0

/-- Exponent suffix of a Python float literal: `e`/`E`, optional sign, digits.
Returns the signed exponent. -/
def parseExponentPart (cs : List Char) : Option ℤ :=
  match cs with
  | [] => none
  | c :: rest =>
    if c = 'e' ∨ c = 'E' then
      match rest with
      | '+' :: ds => if ds ≠ [] ∧ ds.all isDigitChar then some (digitsToNat ds) else none
      | '-' :: ds => if ds ≠ [] ∧ ds.all isDigitChar then some (-(digitsToNat ds : ℤ)) else none
      | ds => if ds ≠ [] ∧ ds.all isDigitChar then some (digitsToNat ds) else none
    else none

/-- Decimal core of CPython's `float(str)` on an already-stripped token:
optional sign, then digits with an optional fractional part (at least one
digit overall), with an optional exponent.  (CPython additionally accepts
`inf`/`nan` spellings and underscore digit separators; those never arise in
the behaviours specified and are not modelled.)  The source calls
`float(x.strip())` at src/app.py line 62. -/
def parseFloatToken (cs : List Char) : Option ℚ :=
  let (sign, cs) : ℚ × List Char :=
    match cs with
    | '+' :: rest => (1, rest)
    | '-' :: rest => (-1, rest)
    | _ => (1, cs)
  let intDigits := cs.takeWhile isDigitChar
  let rest := cs.dropWhile isDigitChar
  let core : Option (ℚ × List Char) :=
    match rest with
    | '.' :: rest2 =>
      let fracDigits := rest2.takeWhile isDigitChar
      let rest3 := rest2.dropWhile isDigitChar
      if intDigits = [] ∧ fracDigits = [] then none
      else some ((digitsToNat intDigits : ℚ) +
                  (digitsToNat fracDigits : ℚ) / (10 : ℚ) ^ fracDigits.length, rest3)
    | _ =>
      if intDigits = [] then none else some ((digitsToNat intDigits : ℚ), rest)
  match core with
  | none => none
  | some (mag, []) => some (sign * mag)
  | some (mag, tail) =>
    match parseExponentPart tail with
    | some e => some (sign * mag * (10 : ℚ) ^ e)
    | none => none

/-- src/app.py line 62:
`offsets2 = [float(x.strip()) for x in raw_ints.split(",") if x.strip()]`.
Split on commas, trim, drop empty tokens, parse each remaining token; a
non-numeric token raises (modelled as `Except.error .parseError`). -/
def offsets2Parse (raw : String) : Except GenError (List ℚ) :=
  let toks := ((splitOnComma raw.data).map trimChars).filter (fun t => t ≠ [])
  toks.foldr
    (fun t acc =>
      match parseFloatToken t, acc with
      | some v, Except.ok vs => Except.ok (v :: vs)
      | _, Except.error e => Except.error e
      | none, _ => Except.error GenError.parseError)
    (Except.ok [])

/-- src/app.py line 59: `offsets1 = [10**-i for i in range(1, decimals + 1)]`.
(Python computes float powers; modelled exactly over `ℚ`.) -/
def offsets1 (decimals : ℕ) : List ℚ :=
  (List.range decimals).map fun i : ℕ => (10 : ℚ) ^ (-((i : ℤ) + 1))

/-- src/app.py line 64: `all_offsets = offsets1 + offsets2`, propagating the
parse failure of `offsets2`. -/
def all_offsets (decimals : ℕ) (raw : String) : Except GenError (List ℚ) :=
  (offsets2Parse raw).map fun lits => offsets1 decimals ++ lits

/-- Drop trailing `'0'` characters (Python `str.rstrip('0')`). -/
def stripZeros (s : String) : String :=
  ⟨(s.data.reverse.dropWhile (fun c => c = '0')).reverse⟩

/-- Drop trailing `'.'` characters (Python `str.rstrip('.')`). -/
def stripDot (s : String) : String :=
  ⟨(s.data.reverse.dropWhile (fun c => c = '.')).reverse⟩

/-- Decimal string of `n`, left-padded with zeros to at least `w` digits. -/
def padZeros (w : ℕ) (n : ℕ) : String :=
  let s := toString n
  ⟨List.replicate (w - s.length) '0' ++ s.data⟩

/-- Python `f"{off:.15f}"`: fixed-point rendering with exactly 15 fractional
digits, rounding to nearest (the source formats the float64 nearest to the
mathematical offset; on every offset the app produces the two agree). -/
def fixed15 (q : ℚ) : String :=
  let n : ℕ := (round (|q| * 10 ^ 15)).toNat
  let ip := n / 10 ^ 15
  let fp := n % 10 ^ 15
  (if q < 0 then "-" else "") ++ toString ip ++ "." ++ padZeros 15 fp

/-- src/app.py line 105: `clean_off = f"{off:.15f}".rstrip('0').rstrip('.')`. -/
def clean_off (off : ℚ) : String :=
  stripDot (stripZeros (fixed15 off))

/-- Smallest number of fractional decimal digits (up to 17) that writes `q`
exactly, if any. -/
def decDigits (q : ℚ) : Option ℕ :=
  (List.range 18).find? fun d => (q * (10 : ℚ) ^ d).den = 1

/-- CPython `repr`/f-string rendering of the float `base_freq` for values with
a short exact decimal expansion (the shortest round-trip decimal): always at
least one fractional digit, so `100.0` renders as `"100.0"`, never `"100"`.
The fallback branch (non-decimal rationals) never arises in specified
behaviour. -/
def pyFloatStr (q : ℚ) : String :=
  let sign := if q < 0 then "-" else ""
  match decDigits |q| with
  | some 0 => sign ++ toString |q|.num ++ ".0"
  | some d =>
    let n := (|q| * (10 : ℚ) ^ d).num.toNat
    sign ++ toString (n / 10 ^ d) ++ "." ++ padZeros d (n % 10 ^ d)
  | none => sign ++ toString |q|

/-- src/app.py line 106:
`fname = f"{i+1}_{base_freq}Hz_plus_{clean_off}Hz_{sample_rate}SR.{file_format}"`
with `seq = i + 1` the 1-based sequence number. -/
def fname (seq : ℕ) (base off : ℚ) (sr : ℕ) (fmt : String) : String :=
  toString seq ++ "_" ++ pyFloatStr base ++ "Hz_plus_" ++ clean_off off ++
    "Hz_" ++ toString sr ++ "SR." ++ fmt

/-- src/app.py lines 100–107: one archive entry per offset, in offset order,
sequence numbers `i+1` for `i, off in enumerate(all_offsets)`.  Only the entry
names matter for the packaging claims. -/
def entriesFor (base : ℚ) (offs : List ℚ) (sr : ℕ) (fmt : String) : List String :=
  offs.enum.map fun p => fname (p.1 + 1) base p.2 sr fmt

/-- Individual mode end to end: build the offset set (parsing may fail), then
the archive entry names together with the count reported by `st.success`
(src/app.py line 110, `len(all_offsets)`). -/
def individualBatchE (base : ℚ) (decimals : ℕ) (raw : String) (sr : ℕ)
    (fmt : String) : Except GenError (List String × ℕ) :=
  (all_offsets decimals raw).map fun offs => (entriesFor base offs sr fmt, offs.length)

/-- src/app.py lines 11–15 (and 70–73): the time grid
`t = np.linspace(0, duration, int(sample_rate * duration), endpoint=False)`
has `int(sr * dur) = sr * dur` samples at instants `t_k = k / sr`, and the
tone is `np.sin(2 * np.pi * freq * t)`.  Modelled over `ℝ` (the source
computes the same function in float64). -/
noncomputable def synthesize (f : ℝ) (sr dur : ℕ) : List ℝ :=
  (List.range (sr * dur)).map fun k : ℕ => Real.sin (2 * Real.pi * f * ((k : ℝ) / (sr : ℝ)))

/-- src/app.py lines 17–21 and 79–83: channel assembly by `np.vstack`.
`include_ref` true pairs the primary signal with the reference buffer,
otherwise the primary signal is duplicated (dual mono).  The frame is the
pair (left column, right column) of the stacked array. -/
def assembleFrame {α : Type} (primary ref : List α) (includeRef : Bool) :
    List α × List α :=
  if includeRef then (primary, ref) else (primary, primary)

/-- src/app.py lines 9–21: `create_audio_segment` before quantization:
synthesize `sig` at `base_freq + offset`, the reference at `base_freq`, and
assemble the stereo frame. -/
noncomputable def create_audio_segment (base off : ℝ) (sr dur : ℕ)
    (includeRef : Bool) : List ℝ × List ℝ :=
  assembleFrame (synthesize (base + off) sr dur) (synthesize base sr dur) includeRef

/-- src/app.py lines 23–24 and 85: `(final * 32767).astype(np.int16)`.
NumPy's float→int conversion is the C cast: it truncates toward zero
(floor for non-negative values, ceiling for negative ones). -/
noncomputable def quantizeSample (x : ℝ) : ℤ :=
  if 0 ≤ x then ⌊x * 32767⌋ else ⌈x * 32767⌉

/-- Quantization applied elementwise to both channels of a frame. -/
noncomputable def quantizeFrame (fr : List ℝ × List ℝ) : List ℤ × List ℤ :=
  (fr.1.map quantizeSample, fr.2.map quantizeSample)

/-- src/app.py lines 70–73: `mixed = np.zeros_like(t)` then
`for off in all_offsets: mixed += np.sin(2 * np.pi * (base_freq + off) * t)`. -/
noncomputable def mixedBuffer (base : ℝ) (offs : List ℝ) (sr dur : ℕ) : List ℝ :=
  offs.foldl
    (fun acc off => List.zipWith (· + ·) acc (synthesize (base + off) sr dur))
    (List.replicate (sr * dur) 0)

/-- Peak absolute value `np.max(np.abs(l))` of a buffer (0 for the empty buffer). -/
noncomputable def peak (l : List ℝ) : ℝ := l.foldr (fun x m => max |x| m) 0

/-- src/app.py line 76: `mixed /= np.max(np.abs(mixed))` — unconditional
division by the peak; there is no guard for a zero peak. -/
noncomputable def normalizeBuf (l : List ℝ) : List ℝ := l.map fun x => x / peak l

/-- The left (mixed) channel of sweep mode after normalization. -/
noncomputable def sweepLeft (base : ℝ) (offs : List ℝ) (sr dur : ℕ) : List ℝ :=
  normalizeBuf (mixedBuffer base offs sr dur)

/-- src/app.py lines 79–83: sweep-mode channel assembly of the normalized
mixed signal with the reference tone. -/
noncomputable def sweepFrame (base : ℝ) (offs : List ℝ) (sr dur : ℕ)
    (includeRef : Bool) : List ℝ × List ℝ :=
  assembleFrame (sweepLeft base offs sr dur) (synthesize base sr dur) includeRef

/-- The sample-rate choices offered by the UI (src/app.py line 45). -/
def allowedRates : List ℕ := [44100, 48000, 88200, 96000]

instance {ε α : Type} [DecidableEq ε] [DecidableEq α] : DecidableEq (Except ε α) := fun
  | .error e, .error f =>
    if h : e = f then isTrue (by rw [h]) else isFalse (fun hx => h (by injection hx))
  | .error _, .ok _ => isFalse (fun hx => Except.noConfusion hx)
  | .ok _, .error _ => isFalse (fun hx => Except.noConfusion hx)
  | .ok a, .ok b =>
    if h : a = b then isTrue (by rw [h]) else isFalse (fun hx => h (by injection hx))

section
attribute [local semireducible] Rat.add Rat.mul Rat.inv Rat.sub

/-- Elements of the geometric offset list, by index. -/
theorem offsets1_getD (d i : ℕ) (hi : i < d) :
    (offsets1 d).getD i 0 = (10 : ℚ) ^ (-((i : ℤ) + 1)) := by
  rw [offsets1, List.getD_eq_getElem?_getD, List.getElem?_map, List.getElem?_range hi]
  rfl

/-- C5: Literal-offset parsing splits on commas, trims whitespace, skips empty
tokens, and parses each remaining token as a real number, failing with
`ParseError` on a non-numeric token: `"1, 10, 100"` parses to
`[1.0, 10.0, 100.0]` in order, `"1,,2"` to `[1.0, 2.0]`, and `"1,x"` fails
with `ParseError`; on that failure the whole individual-mode batch reports
the error and produces no output (parsing happens before any synthesis). -/
theorem literal_offset_parsing :
    offsets2Parse "1, 10, 100" = Except.ok [1, 10, 100] ∧
    offsets2Parse "1,,2" = Except.ok [1, 2] ∧
    offsets2Parse "1,x" = Except.error GenError.parseError ∧
    ∀ (base : ℚ) (d sr : ℕ) (fmt : String),
      individualBatchE base d "1,x" sr fmt = Except.error GenError.parseError := by
  refine ⟨by decide, by decide, by decide, fun base d sr fmt => ?_⟩
  rw [individualBatchE, all_offsets,
    show offsets2Parse "1,x" = Except.error GenError.parseError from by decide]
  rfl

/-- C4: For depth in [1,15] and any literal CSV that parses, the offset set is
the geometric series `10^-i`, `i = 1..depth` (length `depth`, each entry as
stated, strictly decreasing in magnitude) concatenated with the parsed
literals in order — no deduplication, no sorting. -/
theorem offset_set_construction (d : ℕ) (h1 : 1 ≤ d) (h15 : d ≤ 15)
    (raw : String) (lits : List ℚ) (hp : offsets2Parse raw = Except.ok lits) :
    all_offsets d raw = Except.ok (offsets1 d ++ lits) ∧
    (offsets1 d).length = d ∧
    (∀ i, i < d → (offsets1 d).getD i 0 = (10 : ℚ) ^ (-((i : ℤ) + 1))) ∧
    (∀ i j, i < j → j < d →
      |(offsets1 d).getD j 0| < |(offsets1 d).getD i 0|) := by
  refine ⟨by rw [all_offsets, hp]; rfl, by simp [offsets1], offsets1_getD d, ?_⟩
  intro i j hij hj
  rw [offsets1_getD d i (lt_trans hij hj), offsets1_getD d j hj,
    abs_of_pos (by positivity), abs_of_pos (by positivity)]
  exact zpow_lt_zpow_right₀ (by norm_num) (by omega)

/-- Witness for `offset_set_construction` at depth 5, literal "1, 10, 100". -/
theorem offset_set_construction_witness :
    1 ≤ 5 ∧ 5 ≤ 15 ∧ offsets2Parse "1, 10, 100" = Except.ok [1, 10, 100] ∧
    all_offsets 5 "1, 10, 100" = Except.ok (offsets1 5 ++ [1, 10, 100]) :=
  ⟨by norm_num, by norm_num, by decide,
    (offset_set_construction 5 (by norm_num) (by norm_num) "1, 10, 100"
      [1, 10, 100] (by decide)).1⟩

/-- C3 counterexample: with `baseFrequency = 100` the code renders the float
`100.0` into the name, so the entry name is not
`"1_100Hz_plus_0.1Hz_44100SR.wav"` as claimed. -/
theorem naming_c3_counterexample :
    fname 1 100 (1 / 10) 44100 "wav" ≠ "1_100Hz_plus_0.1Hz_44100SR.wav" := by
  decide

/-- C3 amended: the offset is printed to 15 fractional digits and stripped of
trailing zeros and a trailing point, and the base frequency is rendered as a
Python float (always with a fractional part), so index 3, base 440.0, offset
0.1, rate 96000 gives exactly `"3_440.0Hz_plus_0.1Hz_96000SR.wav"`, and
index 1, base 100, offset 0.1, rate 44100 gives exactly
`"1_100.0Hz_plus_0.1Hz_44100SR.wav"` (not `"1_100Hz_..."`). -/
theorem naming_scheme_amended :
    fname 3 440 (1 / 10) 96000 "wav" = "3_440.0Hz_plus_0.1Hz_96000SR.wav" ∧
    fname 1 100 (1 / 10) 44100 "wav" = "1_100.0Hz_plus_0.1Hz_44100SR.wav" ∧
    clean_off (1 / 10) = "0.1" ∧ clean_off 1 = "1" :=
  ⟨by decide, by decide, by decide, by decide⟩

/-- C9: individual mode produces exactly one archive entry per offset, in
offset order with 1-based sequence numbers, and the count the pipeline
reports equals the number of entries generated. -/
theorem individual_mode_archive (base : ℚ) (offs : List ℚ) (sr : ℕ)
    (fmt : String) :
    (entriesFor base offs sr fmt).length = offs.length ∧
    (∀ k, k < offs.length →
      (entriesFor base offs sr fmt).getD k "" =
        fname (k + 1) base (offs.getD k 0) sr fmt) ∧
    (∀ (d : ℕ) (raw : String), all_offsets d raw = Except.ok offs →
      individualBatchE base d raw sr fmt =
        Except.ok (entriesFor base offs sr fmt, (entriesFor base offs sr fmt).length)) := by
  refine ⟨by simp [entriesFor], ?_, ?_⟩
  · intro k hk
    rw [entriesFor, List.getD_eq_getElem?_getD, List.getElem?_map,
      List.getElem?_enum, List.getD_eq_getElem?_getD,
      List.getElem?_eq_getElem hk]
    rfl
  · intro d raw hall
    rw [individualBatchE, hall, Except.map,
      show (entriesFor base offs sr fmt).length = offs.length from by simp [entriesFor]]

/-- Witness for `individual_mode_archive`: the spec's §8 scenario entry — one
offset `0.1`, base 100, rate 44100. -/
theorem individual_mode_archive_witness :
    (0 : ℕ) < ([1 / 10] : List ℚ).length ∧
    (entriesFor 100 [1 / 10] 44100 "wav").getD 0 "" =
      fname 1 100 (([1 / 10] : List ℚ).getD 0 0) 44100 "wav" :=
  ⟨by norm_num, (individual_mode_archive 100 [1 / 10] 44100 "wav").2.1 0 (by norm_num)⟩

end

/-- Length of a synthesized waveform. -/
theorem synthesize_length (f : ℝ) (sr dur : ℕ) :
    (synthesize f sr dur).length = sr * dur := by
  simp [synthesize]

/-- Samples of a synthesized waveform, by index. -/
theorem synthesize_getD (f : ℝ) (sr dur k : ℕ) (hk : k < sr * dur) :
    (synthesize f sr dur).getD k 0 = Real.sin (2 * Real.pi * f * (k / sr)) := by
  rw [synthesize, List.getD_eq_getElem?_getD, List.getElem?_map, List.getElem?_range hk]
  rfl

/-- C8: for every frequency, allowed sample rate and duration in [1,120], the
waveform has `floor(sr * dur) = sr * dur` samples, sample `k` equals
`sin(2π f (k / sr))`, and sample 0 is exactly 0. -/
theorem tone_synthesis_grid (f : ℝ) (sr dur : ℕ) (hsr : sr ∈ allowedRates)
    (hd1 : 1 ≤ dur) (hd2 : dur ≤ 120) :
    (synthesize f sr dur).length = sr * dur ∧
    (∀ k, k < sr * dur →
      (synthesize f sr dur).getD k 0 = Real.sin (2 * Real.pi * f * (k / sr))) ∧
    (synthesize f sr dur).getD 0 0 = 0 := by
  refine ⟨synthesize_length f sr dur, fun k hk => synthesize_getD f sr dur k hk, ?_⟩
  have hsr0 : 0 < sr := by
    simp only [allowedRates, List.mem_cons, List.not_mem_nil, or_false] at hsr
    rcases hsr with rfl | rfl | rfl | rfl <;> norm_num
  rw [synthesize_getD f sr dur 0 (Nat.mul_pos hsr0 hd1)]
  norm_num

/-- Witness for `tone_synthesis_grid` at f = 1, sr = 44100, dur = 1. -/
theorem tone_synthesis_grid_witness :
    44100 ∈ allowedRates ∧ 1 ≤ 1 ∧ 1 ≤ 120 ∧
    (synthesize 1 44100 1).getD 0 0 = 0 :=
  ⟨by decide, le_refl 1, by norm_num,
    (tone_synthesis_grid 1 44100 1 (by decide) (le_refl 1) (by norm_num)).2.2⟩

/-- C7: channel assembly — with the reference enabled the frame is
(primary, reference tone at the base frequency); without it the primary
signal is duplicated into both channels, in both the per-offset path
(`create_audio_segment`) and the sweep path. -/
theorem channel_assembly (base off : ℝ) (sr dur : ℕ) (offs : List ℝ) :
    create_audio_segment base off sr dur true =
      (synthesize (base + off) sr dur, synthesize base sr dur) ∧
    create_audio_segment base off sr dur false =
      (synthesize (base + off) sr dur, synthesize (base + off) sr dur) ∧
    sweepFrame base offs sr dur true =
      (sweepLeft base offs sr dur, synthesize base sr dur) ∧
    sweepFrame base offs sr dur false =
      (sweepLeft base offs sr dur, sweepLeft base offs sr dur) :=
  ⟨rfl, rfl, rfl, rfl⟩

/-- The truncating cast never exceeds the scaled sample in magnitude. -/
theorem quantize_abs_le (x : ℝ) : |(quantizeSample x : ℝ)| ≤ |x * 32767| := by
  rw [quantizeSample]
  by_cases h : 0 ≤ x
  · rw [if_pos h]
    have hy : (0 : ℝ) ≤ x * 32767 := by positivity
    rw [abs_of_nonneg hy,
      abs_of_nonneg (by exact_mod_cast Int.floor_nonneg.mpr hy : (0:ℝ) ≤ (⌊x * 32767⌋ : ℝ))]
    exact Int.floor_le _
  · push_neg at h
    rw [if_neg (not_le.mpr h)]
    have hy : x * 32767 ≤ 0 := by nlinarith
    have hc : (⌈x * 32767⌉ : ℝ) ≤ 0 := by
      exact_mod_cast Int.ceil_le.mpr (by exact_mod_cast hy)
    rw [abs_of_nonpos hy, abs_of_nonpos hc]
    have := Int.le_ceil (x * 32767)
    linarith

/-- The truncating cast differs from the scaled sample by less than one. -/
theorem quantize_err_lt_one (x : ℝ) :
    |x * 32767 - (quantizeSample x : ℝ)| < 1 := by
  rw [quantizeSample]
  by_cases h : 0 ≤ x
  · rw [if_pos h]
    have h1 := Int.floor_le (x * 32767)
    have h2 := Int.lt_floor_add_one (x * 32767)
    rw [abs_lt]
    constructor <;> linarith
  · rw [if_neg h]
    have h1 := Int.le_ceil (x * 32767)
    have h2 := Int.ceil_lt_add_one (x * 32767)
    rw [abs_lt]
    constructor <;> linarith

/-- C1 counterexample: at sample value 1/2 the code's quantization
(truncating cast of `0.5 * 32767 = 16383.5`) gives 16383, while
`round(0.5 * 32767)` gives 16384; so quantization is not round-to-nearest. -/
theorem quantization_c1_counterexample :
    quantizeSample (1 / 2 : ℝ) ≠ round ((1 / 2 : ℝ) * 32767) := by
  have h1 : quantizeSample (1 / 2 : ℝ) = 16383 := by
    rw [quantizeSample, if_pos (by norm_num)]
    apply Int.floor_eq_iff.mpr
    constructor <;> norm_num
  have h2 : round ((1 / 2 : ℝ) * 32767) = 16384 := by
    rw [round_eq]
    apply Int.floor_eq_iff.mpr
    constructor <;> norm_num
  rw [h1, h2]
  decide

/-- C1 amended: quantization is the elementwise truncating cast of
`sample * 32767` toward zero — each quantized value is no larger in magnitude
than `sample * 32767` and within distance 1 of it — applied independently to
each channel of the frame. -/
theorem quantization_truncates (x : ℝ) :
    |(quantizeSample x : ℝ)| ≤ |x * 32767| ∧
    |x * 32767 - (quantizeSample x : ℝ)| < 1 ∧
    ∀ l r : List ℝ, quantizeFrame (l, r) = (l.map quantizeSample, r.map quantizeSample) :=
  ⟨quantize_abs_le x, quantize_err_lt_one x, fun l r => rfl⟩

/-- C10: under the precondition that a sample lies in [-1, 1], its 16-bit
conversion lies in [-32767, 32767], so no int16 overflow occurs; and no
clamping is performed — an out-of-range sample such as 2 exceeds the int16
range, so the guarantee relies entirely on the precondition. -/
theorem quantization_no_overflow (x : ℝ) (h1 : -1 ≤ x) (h2 : x ≤ 1) :
    (-32767 ≤ quantizeSample x ∧ quantizeSample x ≤ 32767) ∧
    32767 < quantizeSample (2 : ℝ) := by
  constructor
  · have h := quantize_abs_le x
    have hx : |x| ≤ 1 := abs_le.mpr ⟨h1, h2⟩
    have habs : |x * 32767| ≤ 32767 := by
      rw [abs_mul, abs_of_nonneg (by norm_num : (0:ℝ) ≤ 32767)]
      nlinarith [abs_nonneg x]
    have hq : |(quantizeSample x : ℝ)| ≤ 32767 := le_trans h habs
    rw [abs_le] at hq
    exact ⟨by exact_mod_cast hq.1, by exact_mod_cast hq.2⟩
  · have : quantizeSample (2 : ℝ) = 65534 := by
      rw [quantizeSample, if_pos (by norm_num)]
      apply Int.floor_eq_iff.mpr
      constructor <;> norm_num
    rw [this]
    decide

/-- Witness for `quantization_no_overflow` at x = 1. -/
theorem quantization_no_overflow_witness :
    -1 ≤ (1 : ℝ) ∧ (1 : ℝ) ≤ 1 ∧
    (-32767 ≤ quantizeSample (1 : ℝ) ∧ quantizeSample (1 : ℝ) ≤ 32767) :=
  ⟨by norm_num, le_refl 1, (quantization_no_overflow 1 (by norm_num) (le_refl 1)).1⟩

/-- Unfolding `peak` on a cons. -/
theorem peak_cons (x : ℝ) (l : List ℝ) : peak (x :: l) = max |x| (peak l) := rfl

/-- The peak is never negative. -/
theorem peak_nonneg (l : List ℝ) : 0 ≤ peak l := by
  induction l with
  | nil => exact le_refl 0
  | cons x t ih => exact le_trans ih (le_max_right _ _)

/-- The peak of an all-zero buffer is zero. -/
theorem peak_replicate_zero (n : ℕ) : peak (List.replicate n (0 : ℝ)) = 0 := by
  induction n with
  | zero => rfl
  | succ n ih => rw [List.replicate_succ, peak_cons, ih, abs_zero, max_self]

/-- Dividing a buffer elementwise by a positive constant divides its peak. -/
theorem peak_map_div (l : List ℝ) (p : ℝ) (hp : 0 < p) :
    peak (l.map fun x => x / p) = peak l / p := by
  induction l with
  | nil => simp [peak]
  | cons x t ih =>
    rw [List.map_cons, peak_cons, peak_cons, ih, abs_div, abs_of_pos hp,
      max_div_div_right hp.le]

/-- Pointwise addition of two maps over the same index list. -/
theorem zipWith_add_map (g h : ℕ → ℝ) (l : List ℕ) :
    List.zipWith (· + ·) (l.map g) (l.map h) = l.map fun k => g k + h k := by
  induction l with
  | nil => rfl
  | cons a t ih => simp only [List.map_cons, List.zipWith_cons_cons, ih]

/-- The mixing fold, run from any pointwise-described accumulator. -/
theorem mixedBuffer_fold_aux (base : ℝ) (sr dur : ℕ) (offs : List ℝ)
    (g : ℕ → ℝ) :
    offs.foldl
      (fun acc off => List.zipWith (· + ·) acc (synthesize (base + off) sr dur))
      ((List.range (sr * dur)).map g) =
    (List.range (sr * dur)).map fun k : ℕ =>
      g k + (offs.map fun off =>
        Real.sin (2 * Real.pi * (base + off) * ((k : ℝ) / (sr : ℝ)))).sum := by
  induction offs generalizing g with
  | nil => simp
  | cons o t ih =>
    rw [List.foldl_cons, synthesize, zipWith_add_map, ih]
    congr 1
    funext k
    rw [List.map_cons, List.sum_cons]
    ring

/-- The mixed buffer is the pointwise sum, over all offsets, of the
synthesized tones. -/
theorem mixedBuffer_eq_sum (base : ℝ) (offs : List ℝ) (sr dur : ℕ) :
    mixedBuffer base offs sr dur =
      (List.range (sr * dur)).map fun k : ℕ =>
        (offs.map fun off =>
          Real.sin (2 * Real.pi * (base + off) * ((k : ℝ) / (sr : ℝ)))).sum := by
  rw [mixedBuffer,
    show List.replicate (sr * dur) (0 : ℝ) = (List.range (sr * dur)).map fun _ => 0 by
      simp,
    mixedBuffer_fold_aux]
  simp

/-- C2 (code evaluated at the failing input): with an empty offset set the
mixed buffer is identically zero, its peak is 0, and the code still divides
every sample by that zero peak — there is no guard and no
`DegenerateSignalError` path anywhere in the source. -/
theorem sweep_empty_offsets_divides_by_zero (base : ℝ) (sr dur : ℕ) :
    mixedBuffer base [] sr dur = List.replicate (sr * dur) 0 ∧
    peak (mixedBuffer base [] sr dur) = 0 ∧
    sweepLeft base [] sr dur =
      (mixedBuffer base [] sr dur).map fun x => x / 0 := by
  refine ⟨rfl, ?_, ?_⟩
  · rw [show mixedBuffer base [] sr dur = List.replicate (sr * dur) 0 from rfl]
    exact peak_replicate_zero (sr * dur)
  · rw [sweepLeft, normalizeBuf,
      show peak (mixedBuffer base [] sr dur) = 0 from by
        rw [show mixedBuffer base [] sr dur = List.replicate (sr * dur) 0 from rfl]
        exact peak_replicate_zero (sr * dur)]

/-- C6: with a non-empty, not all-cancelling offset set (positive peak), the
mixed buffer is the pointwise sum over all offsets of
`sin(2π (base + off) t_k)`, the sweep channel is that buffer divided by its
peak absolute value, and the normalized channel has peak exactly 1. -/
theorem sweep_normalization (base : ℝ) (offs : List ℝ) (sr dur : ℕ)
    (hp : 0 < peak (mixedBuffer base offs sr dur)) :
    (∀ k, k < sr * dur →
      (mixedBuffer base offs sr dur).getD k 0 =
        (offs.map fun off =>
          Real.sin (2 * Real.pi * (base + off) * ((k : ℝ) / (sr : ℝ)))).sum) ∧
    sweepLeft base offs sr dur =
      (mixedBuffer base offs sr dur).map
        (fun x => x / peak (mixedBuffer base offs sr dur)) ∧
    peak (sweepLeft base offs sr dur) = 1 := by
  refine ⟨?_, rfl, ?_⟩
  · intro k hk
    rw [mixedBuffer_eq_sum, List.getD_eq_getElem?_getD, List.getElem?_map,
      List.getElem?_range hk]
    rfl
  · rw [sweepLeft, normalizeBuf, peak_map_div _ _ hp, div_self (ne_of_gt hp)]

/-- Witness for `sweep_normalization`: base 0, one offset 1/2, two samples at
sample rate 2 — the mixed buffer is [0, 1], its peak 1 is positive, and the
normalized sweep channel again has peak 1. -/
theorem sweep_normalization_witness :
    0 < peak (mixedBuffer 0 [1 / 2] 2 1) ∧ peak (sweepLeft 0 [1 / 2] 2 1) = 1 := by
  have hmix : mixedBuffer 0 [1 / 2] 2 1 = [0, 1] := by
    have hs : synthesize (0 + 1 / 2 : ℝ) 2 1 = [0, 1] := by
      rw [synthesize, show (2 * 1 : ℕ) = 2 from rfl,
        show List.range 2 = [0, 1] from rfl, List.map_cons, List.map_cons,
        List.map_nil]
      have h0 : 2 * Real.pi * (0 + 1 / 2) * (((0 : ℕ) : ℝ) / ((2 : ℕ) : ℝ)) = 0 := by
        push_cast
        ring
      have h1 : 2 * Real.pi * (0 + 1 / 2) * (((1 : ℕ) : ℝ) / ((2 : ℕ) : ℝ)) =
          Real.pi / 2 := by
        push_cast
        ring
      rw [h0, h1, Real.sin_zero, Real.sin_pi_div_two]
    rw [mixedBuffer, List.foldl_cons, List.foldl_nil, hs,
      show List.replicate (2 * 1) (0 : ℝ) = [0, 0] from rfl]
    simp [List.zipWith_cons_cons]
  have hpk : peak (mixedBuffer 0 [1 / 2] 2 1) = 1 := by
    rw [hmix]
    show max |(0 : ℝ)| (max |(1 : ℝ)| 0) = 1
    rw [abs_zero, abs_one, max_eq_left (by norm_num : (0 : ℝ) ≤ 1),
      max_eq_right (by norm_num : (0 : ℝ) ≤ 1)]
  have hp : 0 < peak (mixedBuffer 0 [1 / 2] 2 1) := by
    rw [hpk]
    norm_num
  exact ⟨hp, (sweep_normalization 0 [1 / 2] 2 1 hp).2.2⟩
